import Mathlib

/-!
# Verification of the resumable batch-fetch pipeline (`flatten_crosref_metadata.py`)

Shallow embedding of the pipeline's core functions and proofs of its
specification claims.  The embedding models:

* Python values that flow through the fetcher (`PyVal`), with the dynamic
  operations the source performs on them (`in`, subscript, `.get`, truthiness,
  `.lower()`), each of which can raise (`PyErr`);
* `fetch_metadata_batch` as a retry loop over an oracle giving the behaviour of
  `cr.works` at each attempt (either a raised exception or a returned value);
* `save_batch_compressed` as a loop over the results with a failure oracle
  marking at which record serialization or I/O raises;
* `load_processed_dois` / `save_processed_dois` over the checkpoint artifact's
  raw character content;
* the batcher (lower-casing, checkpoint filtering, slicing) and the
  orchestrator loop of `main`.
-/

/-- Python error raised by a dynamic operation. -/
inductive PyErr where
  | typeError
  | attributeError
  | keyError
  deriving DecidableEq, Repr

/-- A Python value as it appears in the fetcher's data flow: strings,
dictionaries (association lists), lists, `None`, or anything else. -/
inductive PyVal where
  | str (s : String)
  | dict (d : List (String × PyVal))
  | listv (l : List PyVal)
  | none
  | other

/-- Lookup in a Python dict: first binding of the key, if any. -/
def pyDictGet (d : List (String × PyVal)) (k : String) : Option PyVal :=
  (d.find? (fun p => p.1 == k)).map (fun p => p.2)

/-- Python `str.lower()`, modelled character by character. -/
def pyLower (s : String) : String :=
  String.mk (s.data.map Char.toLower)

/-- Python `k in v` for a string key `k`: membership test on dicts and lists,
substring test on strings, raises `TypeError` on `None` and other values. -/
def pyContains (v : PyVal) (k : String) : Except PyErr Bool :=
  match v with
  | .dict d => .ok (d.any (fun p => p.1 == k))
  | .listv l => .ok (l.any (fun v => match v with | .str s => s == k | _ => false))
  | .str s => .ok (decide (k.data <:+: s.data))
  | .none => .error .typeError
  | .other => .error .typeError

/-- Python `v[k]` for a string key `k`: dict lookup (raising `KeyError` when
absent), `TypeError` on anything else. -/
def pySubscript (v : PyVal) (k : String) : Except PyErr PyVal :=
  match v with
  | .dict d =>
    match pyDictGet d k with
    | some w => .ok w
    | Option.none => .error .keyError
  | _ => .error .typeError

/-- Python `v.get(k)`: dict method returning the value or `None`; raises
`AttributeError` when `v` is not a dict (in particular when `v` is `None`). -/
def pyGetMethod (v : PyVal) (k : String) : Except PyErr PyVal :=
  match v with
  | .dict d => .ok ((pyDictGet d k).getD .none)
  | _ => .error .attributeError

/-- Python truthiness of a value. -/
def pyTruthy : PyVal → Bool
  | .str s => !s.isEmpty
  | .dict d => !d.isEmpty
  | .listv l => !l.isEmpty
  | .none => false
  | .other => true

/-- Python `v.lower()`: defined on strings only, `AttributeError` otherwise. -/
def pyLowerVal (v : PyVal) : Except PyErr String :=
  match v with
  | .str s => .ok (pyLower s)
  | _ => .error .attributeError

/-- One iteration of the multi-DOI branch of `fetch_metadata_batch`
(source lines 72-77): `if 'message' in res: item = res['message'];
doi = item.get('DOI'); if doi: results.append((doi.lower(), item))`. -/
def procListItem (res : PyVal) : Except PyErr (List (String × PyVal)) := do
  let b ← pyContains res "message"
  if b then
    let item ← pySubscript res "message"
    let doi ← pyGetMethod item "DOI"
    if pyTruthy doi then
      let s ← pyLowerVal doi
      pure [(s, item)]
    else
      pure []
  else
    pure []

/-- The response-shape handling of `fetch_metadata_batch` (source lines
70-86): a list response is folded item by item; a dict response is treated as
a single record via `response.get('message')`; any other type is logged and
yields the empty result list.  Exceptions raised along the way propagate to
the enclosing `try`. -/
def processResponse (response : PyVal) : Except PyErr (List (String × PyVal)) :=
  match response with
  | .listv items =>
    items.foldlM (fun acc res => do pure (acc ++ (← procListItem res))) []
  | .dict d => do
    let item := (pyDictGet d "message").getD .none
    let doi ← pyGetMethod item "DOI"
    if pyTruthy doi then
      let s ← pyLowerVal doi
      pure [(s, item)]
    else
      pure []
  | _ => .ok []

/-- Maximum number of fetch attempts (source line 24). -/
def MAX_RETRIES : Nat := 5

/-- Batch size (source line 23). -/
def BATCH_SIZE : Nat := 100

/-- Outcome of one run of `fetch_metadata_batch`: the returned pairs, the
backoff sleeps performed (in order, in seconds), and the number of attempts
(calls of `cr.works`) made. -/
structure FetchResult where
  results : List (String × PyVal)
  sleeps : List Nat
  attempts : Nat

/-- The body of the `try` block at a given attempt: call `cr.works`
(whose behaviour the `oracle` gives: a raised exception or a response value)
and process the response. -/
def tryBody (oracle : Nat → Except PyErr PyVal) (attempt : Nat) :
    Except PyErr (List (String × PyVal)) :=
  match oracle attempt with
  | .error e => .error e
  | .ok response => processResponse response

/-- The `while attempt < MAX_RETRIES` loop of `fetch_metadata_batch`
(source lines 64-97), with `fuel = MAX_RETRIES - attempt`.  The `except`
clause catches every exception the body raises; after incrementing the
counter it sleeps `2 ^ attempt` seconds if attempts remain, otherwise it
breaks out and the function returns `[]`.  The result is `Except`-valued so
that an exception escaping the loop would be visible as an `.error`. -/
def fetchGoE (oracle : Nat → Except PyErr PyVal) :
    Nat → Nat → Except PyErr FetchResult
  | _, 0 => .ok ⟨[], [], 0⟩
  | attempt, fuel + 1 =>
    match tryBody oracle attempt with
    | .ok results => .ok ⟨results, [], 1⟩
    | .error _ =>
      if attempt + 1 < MAX_RETRIES then
        match fetchGoE oracle (attempt + 1) fuel with
        | .ok r => .ok ⟨r.results, 2 ^ (attempt + 1) :: r.sleeps, r.attempts + 1⟩
        | .error e => .error e
      else
        .ok ⟨[], [], 1⟩

/-- `fetch_metadata_batch` (source lines 58-97): the retry loop entered with
`attempt = 0`. -/
def fetch_metadata_batch (oracle : Nat → Except PyErr PyVal) :
    Except PyErr FetchResult :=
  fetchGoE oracle 0 MAX_RETRIES

/-!
## Batch writer: `save_batch_compressed` (source lines 99-116)

The source writes one serialized line per `(doi, metadata)` pair and adds the
doi to the in-memory `processed_dois` set immediately after that pair's
`f.write`.  A `failAt : Option Nat` oracle marks the record index at which
`json.dumps` or `f.write` raises (if any); the enclosing `try/except` catches
the exception and logs it, so the set mutations made before the failure
survive.  The returned `Bool` records whether the artifact write completed
without error.
-/

/-- The `for doi, metadata in results` loop inside the `with gzip.open` block:
writes record `idx`, then adds its doi to the set; raises (stopping the loop,
set unchanged for this and later records) when `failAt = some idx`. -/
def writeLoop (failAt : Option Nat) :
    List (String × PyVal) → Nat → Finset String → Finset String × Bool
  | [], _, processed => (processed, true)
  | (doi, _) :: rest, idx, processed =>
    if failAt = some idx then (processed, false)
    else writeLoop failAt rest (idx + 1) (insert doi processed)

/-- `save_batch_compressed`: no-op on an empty result list, otherwise the
write loop starting at record 0 under the `try/except`. -/
def save_batch_compressed (results : List (String × PyVal)) (failAt : Option Nat)
    (processed : Finset String) : Finset String × Bool :=
  if results.isEmpty then (processed, true)
  else writeLoop failAt results 0 processed

/-!
## Checkpoint store: `load_processed_dois` / `save_processed_dois`
(source lines 37-56)

The artifact is modelled at the level of its raw character content
(`Option (List Char)`, `none` = file absent).  `save_processed_dois` opens
the target with mode `'w'`, which truncates it before any line is written;
a `Nat → Bool` oracle says whether the write of the line at a given index
succeeds.  `load_processed_dois` splits the content into lines, strips each
line, and keeps the non-empty ones as a set.
-/

/-- Whitespace characters stripped by Python's `str.strip()` (ASCII range). -/
def isPySpace (c : Char) : Bool :=
  c = ' ' || c = '\t' || c = '\n' || c = '\r' || c = '\x0b' || c = '\x0c'

/-- Python `str.strip()` on a character list. -/
def stripChars (l : List Char) : List Char :=
  ((l.dropWhile isPySpace).reverse.dropWhile isPySpace).reverse

/-- Split a character list at newline characters (the line structure seen by
`for line in f` once each line is stripped). -/
def splitLines : List Char → List (List Char)
  | [] => [[]]
  | c :: cs =>
    if c = '\n' then [] :: splitLines cs
    else
      match splitLines cs with
      | [] => [[c]]
      | l :: ls => (c :: l) :: ls

/-- `load_processed_dois`: absent file gives the empty set; otherwise
`set(line.strip() for line in f if line.strip())`. -/
def load_processed_dois (file : Option (List Char)) : Finset String :=
  match file with
  | Option.none => ∅
  | some content =>
    (((splitLines content).map stripChars).filter
      (fun l => !l.isEmpty)).map (fun l => String.mk l) |>.toFinset

/-- The `for doi in processed_dois: f.write(f"{doi}\n")` loop: appends each
identifier's characters plus a newline to the (already truncated) file, until
the oracle reports a raised I/O error. -/
def saveLines (oracle : Nat → Bool) :
    List String → Nat → List Char → List Char × Bool
  | [], _, content => (content, true)
  | d :: rest, idx, content =>
    if oracle idx then saveLines oracle rest (idx + 1) (content ++ d.data ++ ['\n'])
    else (content, false)

/-- `save_processed_dois`: `open(processed_dois_file, 'w')` truncates the
artifact (discarding `file`, the prior content) and the loop writes the
identifiers one line each.  Returns the resulting artifact content and
whether every write succeeded. -/
def save_processed_dois (dois : List String) (oracle : Nat → Bool)
    (file : Option (List Char)) : Option (List Char) × Bool :=
  let r := saveLines oracle dois 0 []
  (some r.1, r.2)

/-!
## Batcher (source lines 136-162)

`main` lower-cases the `doi` column, filters out identifiers already in the
checkpoint, and slices the remainder into `num_batches = (total + BATCH_SIZE
- 1) // BATCH_SIZE` consecutive chunks `remaining[i*bs:(i+1)*bs]`.
-/

/-- The remaining identifiers: lower-cased input minus the checkpoint
(source lines 136-150). -/
def remainingOf (rawDois : List String) (processed : Finset String) : List String :=
  (rawDois.map pyLower).filter (fun d => d ∉ processed)

/-- The batch partition of `main` (source lines 159-162), with the batch size
as a parameter (the source fixes it to `BATCH_SIZE`). -/
def partitionBatches (rawDois : List String) (processed : Finset String)
    (batchSize : Nat) : List (List String) :=
  let remaining := remainingOf rawDois processed
  let numBatches := (remaining.length + batchSize - 1) / batchSize
  (List.range numBatches).map (fun i => (remaining.drop (i * batchSize)).take batchSize)

/-!
## Orchestrator (source lines 122-175)

The loop state carries the in-memory `processed_dois` set, the set most
recently persisted by `save_processed_dois` (abstracted to the set it encodes,
justified by the round-trip property proved below), and a count of persist
calls.  Per-batch nondeterminism (what `fetch_metadata_batch` returned, where
the artifact write failed) is an oracle value per batch.
-/

/-- Orchestrator loop state. -/
structure RunState where
  mem : Finset String
  disk : Finset String
  persists : Nat
  deriving DecidableEq

/-- Per-batch environment behaviour: what the fetch returned and at which
record (if any) the batch artifact write raised. -/
structure BatchOracle where
  fetchResult : List (String × PyVal)
  writeFailAt : Option Nat

/-- One iteration of the `for batch_num, doi_batch in enumerate(doi_batches)`
loop (source lines 164-173): fetch, write when non-empty (mutating the
in-memory set), then `save_processed_dois` unconditionally. -/
def processBatch (ora : BatchOracle) (s : RunState) : RunState :=
  let mem :=
    if ora.fetchResult.isEmpty then s.mem
    else (save_batch_compressed ora.fetchResult ora.writeFailAt s.mem).1
  { mem := mem, disk := mem, persists := s.persists + 1 }

/-- The whole batch loop over the per-batch oracles. -/
def runLoop (oras : List BatchOracle) (s : RunState) : RunState :=
  oras.foldl (fun t o => processBatch o t) s

/-- How a run of `main` terminated. -/
inductive RunOutcome where
  | noDois
  | allProcessed
  | completed
  deriving DecidableEq, Repr

/-- Observable trace of a run of `main`: how it ended, how many batches were
created, how many calls of `fetch_metadata_batch` occurred, and the final
loop state. -/
structure RunTrace where
  outcome : RunOutcome
  numBatches : Nat
  fetchCalls : Nat
  final : RunState
  deriving DecidableEq

/-- `main` after the input artifact has been read into `rawDois` (source
lines 140-175): exit when no identifiers, load the checkpoint, exit when no
identifier remains, otherwise run the batch loop (one fetch call per batch). -/
def mainRun (rawDois : List String) (processedInit : Finset String)
    (oracle : Nat → BatchOracle) : RunTrace :=
  let doiList := rawDois.map pyLower
  if doiList.isEmpty then
    ⟨.noDois, 0, 0, ⟨processedInit, processedInit, 0⟩⟩
  else
    let remaining := doiList.filter (fun d => d ∉ processedInit)
    if remaining.isEmpty then
      ⟨.allProcessed, 0, 0, ⟨processedInit, processedInit, 0⟩⟩
    else
      let batches := partitionBatches rawDois processedInit BATCH_SIZE
      let oras := (List.range batches.length).map oracle
      ⟨.completed, batches.length, batches.length,
        runLoop oras ⟨processedInit, processedInit, 0⟩⟩

/-!
## Helper lemmas
-/

lemma writeLoop_subset (failAt : Option Nat) :
    ∀ (results : List (String × PyVal)) (idx : Nat) (processed : Finset String),
      processed ⊆ (writeLoop failAt results idx processed).1 := by
  intro results
  induction results with
  | nil => intro idx processed; simp [writeLoop]
  | cons p rest ih =>
    intro idx processed
    obtain ⟨doi, m⟩ := p
    simp only [writeLoop]
    by_cases h : failAt = some idx
    · simp [h]
    · simp only [h, if_neg, if_false]
      exact fun x hx => ih (idx + 1) (insert doi processed) (Finset.mem_insert_of_mem hx)

lemma writeLoop_fail :
    ∀ (results : List (String × PyVal)) (idx i : Nat) (processed : Finset String),
      i < results.length →
      writeLoop (some (idx + i)) results idx processed =
        (processed ∪ ((results.take i).map Prod.fst).toFinset, false) := by
  intro results
  induction results with
  | nil => intro idx i processed hi; simp at hi
  | cons p rest ih =>
    intro idx i processed hi
    obtain ⟨doi, m⟩ := p
    match i with
    | 0 => simp [writeLoop]
    | j + 1 =>
      have hne : ¬ (some (idx + (j + 1)) = some idx) := by simp
      have harg : idx + (j + 1) = (idx + 1) + j := by omega
      simp only [writeLoop, hne, if_false]
      rw [harg, ih (idx + 1) j (insert doi processed) (by simp at hi; omega)]
      simp [Finset.insert_union, Finset.union_insert]

lemma writeLoop_ok :
    ∀ (results : List (String × PyVal)) (idx : Nat) (processed : Finset String),
      writeLoop Option.none results idx processed =
        (processed ∪ (results.map Prod.fst).toFinset, true) := by
  intro results
  induction results with
  | nil => intro idx processed; simp [writeLoop]
  | cons p rest ih =>
    intro idx processed
    obtain ⟨doi, m⟩ := p
    simp only [writeLoop, reduceCtorEq, if_false]
    rw [ih (idx + 1) (insert doi processed)]
    simp [Finset.insert_union, Finset.union_insert]

lemma pyDictGet_eq_none_iff (d : List (String × PyVal)) (k : String) :
    pyDictGet d k = Option.none ↔ d.any (fun p => p.1 == k) = false := by
  simp [pyDictGet, List.find?_eq_none, List.any_eq_false]

lemma fetchGoE_isOk (oracle : Nat → Except PyErr PyVal) :
    ∀ (fuel attempt : Nat), ∃ r, fetchGoE oracle attempt fuel = .ok r := by
  intro fuel
  induction fuel with
  | zero => intro attempt; exact ⟨_, rfl⟩
  | succ n ih =>
    intro attempt
    cases htb : tryBody oracle attempt with
    | ok results => exact ⟨⟨results, [], 1⟩, by simp [fetchGoE, htb]⟩
    | error e =>
      by_cases hlt : attempt + 1 < MAX_RETRIES
      · obtain ⟨r, hr⟩ := ih (attempt + 1)
        exact ⟨⟨r.results, 2 ^ (attempt + 1) :: r.sleeps, r.attempts + 1⟩,
          by simp [fetchGoE, htb, hlt, hr]⟩
      · exact ⟨⟨[], [], 1⟩, by simp [fetchGoE, htb, hlt]⟩

/-- A fetch oracle whose call raises at every attempt. -/
def alwaysRaise : Nat → Except PyErr PyVal := fun _ => .error .typeError

/-- A fetch oracle that always returns a single-record response whose
`message` envelope is missing. -/
def emptyDictResponse : Nat → Except PyErr PyVal := fun _ => .ok (.dict [])

/-!
## Claims about the fetcher
-/

/-- C2: if the underlying bulk-lookup call raises on every attempt,
`fetch_metadata_batch` makes exactly `MAX_RETRIES = 5` attempts, sleeps
`2^k` seconds before the `k`-th retry for `k = 1 .. MAX_RETRIES - 1` (no
sleep after the final attempt), and returns the empty result. -/
theorem fetch_retry_bound_and_backoff (oracle : Nat → Except PyErr PyVal)
    (h : ∀ k, ∃ e, oracle k = .error e) :
    fetch_metadata_batch oracle =
      .ok ⟨[], [2 ^ 1, 2 ^ 2, 2 ^ 3, 2 ^ 4], MAX_RETRIES⟩ := by
  obtain ⟨e0, h0⟩ := h 0
  obtain ⟨e1, h1⟩ := h 1
  obtain ⟨e2, h2⟩ := h 2
  obtain ⟨e3, h3⟩ := h 3
  obtain ⟨e4, h4⟩ := h 4
  simp [fetch_metadata_batch, MAX_RETRIES, fetchGoE, tryBody, h0, h1, h2, h3, h4]

/-- Witness for C2: the always-raising oracle satisfies the hypothesis and
exhibits the 5 attempts, the backoff schedule 2, 4, 8, 16, and the empty
result. -/
theorem fetch_retry_bound_and_backoff_witness :
    (∀ k, ∃ e, alwaysRaise k = .error e) ∧
    fetch_metadata_batch alwaysRaise =
      .ok ⟨[], [2 ^ 1, 2 ^ 2, 2 ^ 3, 2 ^ 4], MAX_RETRIES⟩ :=
  ⟨fun _ => ⟨.typeError, rfl⟩,
   fetch_retry_bound_and_backoff alwaysRaise (fun _ => ⟨.typeError, rfl⟩)⟩

/-- C5: `fetch_metadata_batch` never raises, whatever the underlying call
does at each attempt (returning any value, of expected shape or not, or
raising): every exception point in the body is dominated by the
`except` clause, so the function always returns a plain result list. -/
theorem fetch_metadata_batch_never_raises (oracle : Nat → Except PyErr PyVal) :
    ∃ r, fetch_metadata_batch oracle = .ok r :=
  fetchGoE_isOk oracle MAX_RETRIES 0

/-- C4 counterexample: a single-record response whose `message` envelope is
missing is not silently dropped — `item.get('DOI')` is evaluated on `None`,
which raises `AttributeError`, so the attempt counts as a request-level
failure and the whole retry/backoff schedule runs (5 attempts, sleeps
2, 4, 8, 16) before the empty result is returned. -/
theorem single_record_missing_envelope_causes_retry :
    processResponse (.dict []) = .error .attributeError ∧
    fetch_metadata_batch emptyDictResponse =
      .ok ⟨[], [2 ^ 1, 2 ^ 2, 2 ^ 3, 2 ^ 4], MAX_RETRIES⟩ := by
  constructor
  · rfl
  · rfl

lemma except_ok_bind {ε α β : Type} (a : α) (f : α → Except ε β) :
    (Except.ok a : Except ε α) >>= f = f a := rfl

lemma except_error_bind {ε α β : Type} (e : ε) (f : α → Except ε β) :
    (Except.error e : Except ε α) >>= f = Except.error e := rfl

lemma except_map_ok {ε α β : Type} (f : α → β) (a : α) :
    f <$> (Except.ok a : Except ε α) = Except.ok (f a) := rfl

lemma except_pure {ε α : Type} (a : α) : (pure a : Except ε α) = Except.ok a := rfl

lemma pyDictGet_some_any (d : List (String × PyVal)) (k : String) (v : PyVal)
    (h : pyDictGet d k = some v) : d.any (fun p => p.1 == k) = true := by
  cases hany : d.any (fun p => p.1 == k) with
  | true => rfl
  | false =>
    have hnone := (pyDictGet_eq_none_iff d k).mpr hany
    rw [hnone] at h
    exact Option.noConfusion h

lemma procListItem_no_message (d : List (String × PyVal))
    (h : pyDictGet d "message" = Option.none) : procListItem (.dict d) = .ok [] := by
  have hany := (pyDictGet_eq_none_iff d "message").mp h
  simp [procListItem, pyContains, hany, except_ok_bind, except_pure]

lemma procListItem_no_doi (d item : List (String × PyVal))
    (h1 : pyDictGet d "message" = some (.dict item))
    (h2 : pyDictGet item "DOI" = Option.none) :
    procListItem (.dict d) = .ok [] := by
  have hany := pyDictGet_some_any d "message" _ h1
  simp [procListItem, pyContains, hany, pySubscript, h1, pyGetMethod, h2, pyTruthy,
    except_ok_bind, except_pure]

lemma string_ne_isEmpty_false (s : String) (hs : s ≠ "") : s.isEmpty = false := by
  cases he : s.isEmpty
  · rfl
  · exact absurd ((String.isEmpty_iff s).mp he) hs

lemma procListItem_with_doi (d item : List (String × PyVal)) (s : String)
    (h1 : pyDictGet d "message" = some (.dict item))
    (h2 : pyDictGet item "DOI" = some (.str s)) (hs : s ≠ "") :
    procListItem (.dict d) = .ok [(pyLower s, .dict item)] := by
  have hany := pyDictGet_some_any d "message" _ h1
  have hs' := string_ne_isEmpty_false s hs
  simp [procListItem, pyContains, hany, pySubscript, h1, pyGetMethod, h2, pyTruthy,
    hs', pyLowerVal, except_ok_bind, except_map_ok]

lemma processResponse_list_dropped (items : List PyVal)
    (h : ∀ v ∈ items, procListItem v = .ok []) :
    processResponse (.listv items) = .ok [] := by
  suffices hgen : ∀ acc : List (String × PyVal),
      items.foldlM (fun acc res => do pure (acc ++ (← procListItem res))) acc = .ok acc by
    simpa [processResponse] using hgen []
  induction items with
  | nil => intro acc; rfl
  | cons v rest ih =>
    intro acc
    simp only [List.foldlM_cons, h v (List.mem_cons_self v rest), except_ok_bind,
      except_map_ok, List.append_nil]
    simpa using ih (fun w hw => h w (List.mem_cons_of_mem v hw)) acc

lemma processResponse_single_no_message (d : List (String × PyVal))
    (h : pyDictGet d "message" = Option.none) :
    processResponse (.dict d) = .error .attributeError := by
  simp [processResponse, h, pyGetMethod, except_error_bind]

lemma processResponse_single_no_doi (d item : List (String × PyVal))
    (h1 : pyDictGet d "message" = some (.dict item))
    (h2 : pyDictGet item "DOI" = Option.none) :
    processResponse (.dict d) = .ok [] := by
  simp [processResponse, h1, pyGetMethod, h2, pyTruthy, except_ok_bind, except_pure]

lemma processResponse_single_with_doi (d item : List (String × PyVal)) (s : String)
    (h1 : pyDictGet d "message" = some (.dict item))
    (h2 : pyDictGet item "DOI" = some (.str s)) (hs : s ≠ "") :
    processResponse (.dict d) = .ok [(pyLower s, .dict item)] := by
  have hs' := string_ne_isEmpty_false s hs
  simp [processResponse, h1, pyGetMethod, h2, pyTruthy, hs', pyLowerVal,
    except_ok_bind, except_map_ok]

/-!
## Claims about response-shape normalization (C4)
-/

/-- C4 counterexample input reused in the amended witness: the single-record
response `{'message': {'DOI': 'X'}}`. -/
def goodSingle : List (String × PyVal) := [("message", .dict [("DOI", .str "X")])]

/-- C4 (amended): response-shape normalization.  In a *list* response a
record missing its `message` envelope, or whose `message` lacks a truthy
`DOI`, is silently dropped, and one carrying `DOI = s ≠ ''` is normalized to
the pair `(s.lower(), record['message'])`; a list all of whose records are
dropped yields `.ok []`.  For a *single-record* (dict) response the same
holds for a missing `DOI`, but a missing `message` envelope raises
`AttributeError` (treated by the caller as a request-level failure that
triggers retry) instead of being silently dropped. -/
theorem response_shape_normalization :
    (∀ d : List (String × PyVal), pyDictGet d "message" = Option.none →
      procListItem (.dict d) = .ok []) ∧
    (∀ d item : List (String × PyVal),
      pyDictGet d "message" = some (.dict item) →
      pyDictGet item "DOI" = Option.none →
      procListItem (.dict d) = .ok []) ∧
    (∀ (d item : List (String × PyVal)) (s : String),
      pyDictGet d "message" = some (.dict item) →
      pyDictGet item "DOI" = some (.str s) → s ≠ "" →
      procListItem (.dict d) = .ok [(pyLower s, .dict item)]) ∧
    (∀ items : List PyVal, (∀ v ∈ items, procListItem v = .ok []) →
      processResponse (.listv items) = .ok []) ∧
    (∀ d : List (String × PyVal), pyDictGet d "message" = Option.none →
      processResponse (.dict d) = .error .attributeError) ∧
    (∀ d item : List (String × PyVal),
      pyDictGet d "message" = some (.dict item) →
      pyDictGet item "DOI" = Option.none →
      processResponse (.dict d) = .ok []) ∧
    (∀ (d item : List (String × PyVal)) (s : String),
      pyDictGet d "message" = some (.dict item) →
      pyDictGet item "DOI" = some (.str s) → s ≠ "" →
      processResponse (.dict d) = .ok [(pyLower s, .dict item)]) :=
  ⟨procListItem_no_message, procListItem_no_doi, procListItem_with_doi,
   processResponse_list_dropped, processResponse_single_no_message,
   processResponse_single_no_doi, processResponse_single_with_doi⟩

/-- Witness for the amended C4, instantiating every part on concrete
records. -/
theorem response_shape_normalization_witness :
    procListItem (.dict []) = .ok [] ∧
    procListItem (.dict [("message", .dict [])]) = .ok [] ∧
    procListItem (.dict goodSingle) = .ok [(pyLower "X", .dict [("DOI", .str "X")])] ∧
    processResponse (.listv [.dict []]) = .ok [] ∧
    processResponse (.dict []) = .error .attributeError ∧
    processResponse (.dict [("message", .dict [])]) = .ok [] ∧
    processResponse (.dict goodSingle) = .ok [(pyLower "X", .dict [("DOI", .str "X")])] :=
  ⟨response_shape_normalization.1 [] rfl,
   response_shape_normalization.2.1 [("message", .dict [])] [] rfl rfl,
   response_shape_normalization.2.2.1 goodSingle [("DOI", .str "X")] "X" rfl rfl
     (by decide),
   response_shape_normalization.2.2.2.1 [.dict []]
     (by intro v hv; simp at hv; rw [hv]; exact response_shape_normalization.1 [] rfl),
   response_shape_normalization.2.2.2.2.1 [] rfl,
   response_shape_normalization.2.2.2.2.2.1 [("message", .dict [])] [] rfl rfl,
   response_shape_normalization.2.2.2.2.2.2 goodSingle [("DOI", .str "X")] "X" rfl rfl
     (by decide)⟩

/-!
## Claims about the batch writer (C1)
-/

/-- `save_batch_compressed` (source lines 99-116) is *not* fail-atomic with
respect to the checkpoint: on the batch `[('a', {}), ('b', {})]`, with the
write raising while processing the second record, the write fails
(`success = false`) yet `'a'` — an identifier of the batch that was not
checkpointed before — is a member of the checkpoint set afterward, because
`processed_dois.add(doi)` runs per record inside the write loop. -/
theorem batch_write_not_fail_atomic :
    (save_batch_compressed [("a", .dict []), ("b", .dict [])] (some 1) ∅).2 = false ∧
    "a" ∈ (save_batch_compressed [("a", .dict []), ("b", .dict [])] (some 1) ∅).1 ∧
    "a" ∉ (∅ : Finset String) ∧
    ("a", PyVal.dict []) ∈ [(("a" : String), PyVal.dict []), ("b", PyVal.dict [])] := by
  refine ⟨?_, ?_, ?_, ?_⟩
  · rfl
  · have h := writeLoop_fail [("a", .dict []), ("b", .dict [])] 0 1 ∅ (by simp)
    simp only [Nat.zero_add] at h
    simp [save_batch_compressed, h]
  · simp
  · simp

/-- C1 (amended): identifiers are added to the in-memory checkpoint one by
one, immediately after each record's line is written.  If the artifact write
raises while processing record `i`, exactly the identifiers of records
`0 .. i-1` are added and the write reports failure; if no record raises, all
of the batch's identifiers are added and the write reports success. -/
theorem save_batch_adds_identifiers_per_record
    (results : List (String × PyVal)) (processed : Finset String) :
    (∀ i, i < results.length →
      save_batch_compressed results (some i) processed =
        (processed ∪ ((results.take i).map Prod.fst).toFinset, false)) ∧
    save_batch_compressed results Option.none processed =
      (processed ∪ (results.map Prod.fst).toFinset, true) := by
  constructor
  · intro i hi
    have hne : ¬ results.isEmpty := by
      cases results
      · simp at hi
      · simp
    have h := writeLoop_fail results 0 i processed hi
    simp only [Nat.zero_add] at h
    simp [save_batch_compressed, hne, h]
  · cases hres : results with
    | nil => simp [save_batch_compressed]
    | cons p rest =>
      rw [← hres]
      have hne : ¬ results.isEmpty := by simp [hres]
      simp [save_batch_compressed, hne, writeLoop_ok results 0 processed]

/-- Witness for the amended C1: the two-record batch failing at record 1
adds exactly `'a'`; with no failure both identifiers are added. -/
theorem save_batch_adds_identifiers_per_record_witness :
    save_batch_compressed [("a", .dict []), ("b", .dict [])] (some 1) ∅ =
      ((∅ : Finset String) ∪
        (([(("a" : String), PyVal.dict []), ("b", PyVal.dict [])].take 1).map
          Prod.fst).toFinset, false) ∧
    save_batch_compressed [("a", .dict []), ("b", .dict [])] Option.none ∅ =
      ((∅ : Finset String) ∪
        ([(("a" : String), PyVal.dict []), ("b", PyVal.dict [])].map
          Prod.fst).toFinset, true) :=
  ⟨(save_batch_adds_identifiers_per_record [("a", .dict []), ("b", .dict [])] ∅).1
      1 (by decide),
   (save_batch_adds_identifiers_per_record [("a", .dict []), ("b", .dict [])] ∅).2⟩

/-!
## Claims about the checkpoint store (C3, C7)
-/

lemma saveLines_all_ok (dois : List String) :
    ∀ (idx : Nat) (content : List Char),
      saveLines (fun _ => true) dois idx content =
        (content ++ (dois.map (fun d => d.data ++ ['\n'])).flatten, true) := by
  induction dois with
  | nil => intro idx content; simp [saveLines]
  | cons d rest ih =>
    intro idx content
    simp only [saveLines, if_true]
    rw [ih (idx + 1) (content ++ d.data ++ ['\n'])]
    simp

lemma saveLines_fail (dois : List String) :
    ∀ (oracle : Nat → Bool) (idx k : Nat) (content : List Char),
      k < dois.length → (∀ i, i < k → oracle (idx + i) = true) →
      oracle (idx + k) = false →
      saveLines oracle dois idx content =
        (content ++ ((dois.take k).map (fun d => d.data ++ ['\n'])).flatten, false) := by
  induction dois with
  | nil => intro oracle idx k content hk _ _; simp at hk
  | cons d rest ih =>
    intro oracle idx k content hk hok hfail
    match k with
    | 0 =>
      simp only [Nat.add_zero] at hfail
      simp [saveLines, hfail]
    | j + 1 =>
      have h0 : oracle idx = true := by
        have := hok 0 (Nat.succ_pos j)
        simpa using this
      simp only [saveLines, h0, if_true]
      rw [ih oracle (idx + 1) j (content ++ d.data ++ ['\n'])
        (by simp at hk; omega)
        (fun i hi => by
          have := hok (i + 1) (by omega)
          rw [show idx + 1 + i = idx + (i + 1) by omega]
          exact this)
        (by rw [show idx + 1 + j = idx + (j + 1) by omega]; exact hfail)]
      simp

lemma splitLines_ne_nil : ∀ l : List Char, splitLines l ≠ [] := by
  intro l
  induction l with
  | nil => simp [splitLines]
  | cons c cs ih =>
    simp only [splitLines]
    by_cases h : c = '\n'
    · simp [h]
    · simp only [h, if_false]
      cases hs : splitLines cs with
      | nil => simp
      | cons a as => simp

lemma splitLines_append (xs : List Char) :
    ∀ rest : List Char, '\n' ∉ xs →
      splitLines (xs ++ '\n' :: rest) = xs :: splitLines rest := by
  induction xs with
  | nil => intro rest _; simp [splitLines]
  | cons c cs ih =>
    intro rest h
    have hc : ¬ c = '\n' := fun hc => h (hc ▸ List.mem_cons_self c cs)
    have hcs : '\n' ∉ cs := fun hm => h (List.mem_cons_of_mem c hm)
    simp only [List.cons_append, splitLines, hc, if_false]
    rw [List.append_eq, ih rest hcs]

lemma splitLines_join (dois : List String) (h : ∀ d ∈ dois, '\n' ∉ d.data) :
    splitLines ((dois.map (fun d => d.data ++ ['\n'])).flatten) =
      dois.map (fun d => d.data) ++ [[]] := by
  induction dois with
  | nil => simp [splitLines]
  | cons d rest ih =>
    have hd : '\n' ∉ d.data := h d (List.mem_cons_self d rest)
    have hrest : ∀ x ∈ rest, '\n' ∉ x.data :=
      fun x hx => h x (List.mem_cons_of_mem d hx)
    simp only [List.map_cons, List.flatten_cons, List.append_assoc, List.singleton_append]
    rw [splitLines_append d.data _ hd, ih hrest]
    simp

/-- C3 counterexample: with prior checkpoint content `"x"` and an identifier
set `{'a'}` whose very first line write raises, `save_processed_dois` reports
failure and the artifact no longer holds the prior content — `open(..., 'w')`
truncated it before the failure; there is no temp-file-and-rename. -/
theorem checkpoint_save_destroys_prior_on_failure :
    (save_processed_dois ["a"] (fun _ => false) (some ['x'])).2 = false ∧
    (save_processed_dois ["a"] (fun _ => false) (some ['x'])).1 ≠ some ['x'] := by
  constructor
  · rfl
  · intro h
    simp [save_processed_dois, saveLines] at h

/-- C3 (amended): `save_processed_dois` writes directly to the target
artifact, which `open(..., 'w')` truncates first.  If the line writes succeed
up to index `k` and the write of line `k` raises, the artifact afterwards
holds exactly the first `k` identifiers' lines — whatever content it held
before is lost — and the save reports failure; if every line write succeeds
the artifact holds exactly one line per identifier. -/
theorem save_processed_dois_truncates_then_writes (dois : List String)
    (oracle : Nat → Bool) (file : Option (List Char)) :
    (∀ k, k < dois.length → (∀ i, i < k → oracle i = true) → oracle k = false →
      save_processed_dois dois oracle file =
        (some (((dois.take k).map (fun d => d.data ++ ['\n'])).flatten), false)) ∧
    ((∀ i, i < dois.length → oracle i = true) →
      save_processed_dois dois oracle file =
        (some ((dois.map (fun d => d.data ++ ['\n'])).flatten), true)) := by
  constructor
  · intro k hk hok hfail
    have h := saveLines_fail dois oracle 0 k [] hk (fun i hi => by simpa using hok i hi)
      (by simpa using hfail)
    simp [save_processed_dois, h]
  · intro hok
    suffices hgen : ∀ (ds : List String) (idx : Nat) (content : List Char),
        (∀ i, i < ds.length → oracle (idx + i) = true) →
        saveLines oracle ds idx content =
          (content ++ (ds.map (fun d => d.data ++ ['\n'])).flatten, true) by
      have h := hgen dois 0 [] (fun i hi => by simpa using hok i hi)
      simp [save_processed_dois, h]
    intro ds
    induction ds with
    | nil => intro idx content _; simp [saveLines]
    | cons d rest ih =>
      intro idx content hok'
      have h0 : oracle idx = true := by simpa using hok' 0 (Nat.succ_pos rest.length)
      simp only [saveLines, h0, if_true]
      rw [ih (idx + 1) (content ++ d.data ++ ['\n'])
        (fun i hi => by
          rw [show idx + 1 + i = idx + (i + 1) by omega]
          exact hok' (i + 1) (by simp; omega))]
      simp

/-- Witness for the amended C3: identifiers `['a', 'b']` with the write of
line 1 raising leave the artifact holding exactly `"a\n"`; with no failure it
holds `"a\nb\n"`. -/
theorem save_processed_dois_truncates_then_writes_witness :
    save_processed_dois ["a", "b"] (fun i => i == 0) (some ['x']) =
      (some (((["a", "b"].take 1).map (fun d => d.data ++ ['\n'])).flatten), false) ∧
    save_processed_dois ["a", "b"] (fun _ => true) (some ['x']) =
      (some ((["a", "b"].map (fun d => d.data ++ ['\n'])).flatten), true) :=
  ⟨(save_processed_dois_truncates_then_writes ["a", "b"] (fun i => i == 0)
      (some ['x'])).1 1 (by decide) (fun i hi => by interval_cases i <;> rfl) (by decide),
   (save_processed_dois_truncates_then_writes ["a", "b"] (fun _ => true)
      (some ['x'])).2 (fun i _ => rfl)⟩

lemma stripChars_nil : stripChars [] = [] := rfl

/-- C7: checkpoint round-trip.  For identifiers that are non-empty, contain
no newline, and are `strip`-invariant (no leading or trailing whitespace),
loading immediately after a fully successful save returns exactly the saved
set; loading when no checkpoint artifact exists returns the empty set. -/
theorem checkpoint_round_trip (dois : List String) (file : Option (List Char))
    (h : ∀ d ∈ dois, d.data ≠ [] ∧ '\n' ∉ d.data ∧ stripChars d.data = d.data) :
    load_processed_dois (save_processed_dois dois (fun _ => true) file).1 =
      dois.toFinset ∧
    load_processed_dois Option.none = ∅ := by
  refine ⟨?_, rfl⟩
  have hsave := saveLines_all_ok dois 0 []
  simp only [List.nil_append] at hsave
  simp only [save_processed_dois, hsave, load_processed_dois]
  rw [splitLines_join dois (fun d hd => (h d hd).2.1)]
  have e1 : (dois.map (fun d : String => d.data)).map stripChars =
      dois.map (fun d : String => d.data) := by
    rw [List.map_map]
    exact List.map_congr_left (fun d hd => (h d hd).2.2)
  have e2 : ([([] : List Char)]).map stripChars = [[]] := rfl
  have hmapstrip :
      ((dois.map (fun d : String => d.data) ++ [[]]).map stripChars) =
        dois.map (fun d : String => d.data) ++ [[]] := by
    rw [List.map_append, e1, e2]
  rw [hmapstrip]
  have hfilter :
      (dois.map (fun d : String => d.data) ++ [[]]).filter (fun l => !l.isEmpty) =
        dois.map (fun d : String => d.data) := by
    rw [List.filter_append]
    have h1 : (dois.map (fun d : String => d.data)).filter (fun l => !l.isEmpty) =
        dois.map (fun d : String => d.data) := by
      apply List.filter_eq_self.mpr
      intro l hl
      obtain ⟨d, hd, rfl⟩ := List.mem_map.mp hl
      simpa using (h d hd).1
    have h2 : ([([] : List Char)]).filter (fun l => !l.isEmpty) = [] := by rfl
    rw [h1, h2, List.append_nil]
  rw [hfilter, List.map_map]
  have hmk : (dois.map ((fun l => String.mk l) ∘ fun d : String => d.data)) = dois := by
    have := List.map_congr_left
      (l := dois) (f := (fun l => String.mk l) ∘ fun d : String => d.data) (g := id)
      (fun d _ => rfl)
    rw [this, List.map_id]
  rw [hmk]

/-- Witness for C7: the singleton set `{'a'}` round-trips through an absent
prior artifact. -/
theorem checkpoint_round_trip_witness :
    load_processed_dois (save_processed_dois ["a"] (fun _ => true) Option.none).1 =
      (["a"] : List String).toFinset ∧
    load_processed_dois Option.none = ∅ :=
  checkpoint_round_trip ["a"] Option.none (by decide)

/-!
## Claims about the batcher (C6)
-/

/-- Recursive presentation of consecutive chunks of size `bs` (for `bs ≥ 1`),
used to reason about the slice-based batch construction of `main`. -/
def chunksRec (bs : Nat) : List α → List (List α)
  | [] => []
  | a :: l => (a :: l.take (bs - 1)) :: chunksRec bs (l.drop (bs - 1))
termination_by l => l.length
decreasing_by simp only [List.length_drop, List.length_cons]; omega

lemma chunksRec_nil (bs : Nat) : chunksRec bs ([] : List α) = [] := by
  simp [chunksRec]

lemma chunksRec_cons (bs : Nat) (a : α) (l : List α) :
    chunksRec bs (a :: l) = (a :: l.take (bs - 1)) :: chunksRec bs (l.drop (bs - 1)) := by
  simp [chunksRec]

lemma chunksRec_eq_nil_iff (bs : Nat) (l : List α) :
    chunksRec bs l = [] ↔ l = [] := by
  cases l with
  | nil => simp [chunksRec_nil]
  | cons a t => simp [chunksRec_cons]

lemma slices_eq_chunksRec (b : Nat) :
    ∀ (n : Nat) (l : List α), l.length ≤ n →
      (List.range ((l.length + (b + 1) - 1) / (b + 1))).map
        (fun i => (l.drop (i * (b + 1))).take (b + 1)) = chunksRec (b + 1) l := by
  intro n
  induction n with
  | zero =>
    intro l hl
    have : l = [] := List.length_eq_zero.mp (Nat.le_zero.mp hl)
    subst this
    have hz : b / (b + 1) = 0 := Nat.div_eq_of_lt (by omega)
    simp [hz, chunksRec_nil]
  | succ n ih =>
    intro l hl
    cases l with
    | nil =>
      have hz : b / (b + 1) = 0 := Nat.div_eq_of_lt (by omega)
      simp [hz, chunksRec_nil]
    | cons a t =>
      have hK : ((a :: t).length + (b + 1) - 1) / (b + 1) = t.length / (b + 1) + 1 := by
        have h1 : (a :: t).length + (b + 1) - 1 = t.length + (b + 1) := by
          simp [List.length_cons]; omega
        rw [h1, Nat.add_div_right _ (Nat.succ_pos b)]
      have hK' : (t.drop b).length = t.length - b := List.length_drop b t
      have hKtail : ((t.drop b).length + (b + 1) - 1) / (b + 1) = t.length / (b + 1) := by
        rw [hK']
        by_cases hb : b ≤ t.length
        · have : t.length - b + (b + 1) - 1 = t.length := by omega
          rw [this]
        · have h2 : t.length - b + (b + 1) - 1 = b := by omega
          have h3 : (b : Nat) / (b + 1) = 0 := Nat.div_eq_of_lt (by omega)
          have h4 : t.length / (b + 1) = 0 := Nat.div_eq_of_lt (by omega)
          rw [h2, h3, h4]
      rw [hK, List.range_succ_eq_map, List.map_cons]
      rw [chunksRec_cons]
      have hhead : ((a :: t).drop (0 * (b + 1))).take (b + 1) =
          a :: t.take ((b + 1) - 1) := by
        simp [List.take_cons]
      have htail :
          (List.map Nat.succ (List.range (t.length / (b + 1)))).map
              (fun i => ((a :: t).drop (i * (b + 1))).take (b + 1)) =
            chunksRec (b + 1) (t.drop ((b + 1) - 1)) := by
        rw [List.map_map]
        have hfun : ∀ i : Nat,
            (((a :: t).drop (Nat.succ i * (b + 1))).take (b + 1)) =
              (((t.drop b).drop (i * (b + 1))).take (b + 1)) := by
          intro i
          have h5 : Nat.succ i * (b + 1) = (i * (b + 1)) + (b + 1) := Nat.succ_mul i (b + 1)
          have h6 : (a :: t).drop ((i * (b + 1)) + (b + 1)) =
              ((a :: t).drop (b + 1)).drop (i * (b + 1)) := by
            rw [List.drop_drop]
            rw [Nat.add_comm]
          have h7 : (a :: t).drop (b + 1) = t.drop b := by
            simp [List.drop_succ_cons]
          rw [h5, h6, h7]
        have hcongr := List.map_congr_left
          (l := List.range (t.length / (b + 1)))
          (f := (fun i => ((a :: t).drop (i * (b + 1))).take (b + 1)) ∘ Nat.succ)
          (g := fun i => ((t.drop b).drop (i * (b + 1))).take (b + 1))
          (fun i _ => hfun i)
        rw [hcongr, ← hKtail]
        have : (b + 1) - 1 = b := by omega
        rw [this]
        exact ih (t.drop b) (by rw [hK']; simp at hl; omega)
      rw [hhead, htail]

lemma chunksRec_flatten (b : Nat) :
    ∀ (n : Nat) (l : List α), l.length ≤ n → (chunksRec (b + 1) l).flatten = l := by
  intro n
  induction n with
  | zero =>
    intro l hl
    have : l = [] := List.length_eq_zero.mp (Nat.le_zero.mp hl)
    subst this
    simp [chunksRec_nil]
  | succ n ih =>
    intro l hl
    cases l with
    | nil => simp [chunksRec_nil]
    | cons a t =>
      rw [chunksRec_cons]
      simp only [List.flatten_cons]
      rw [ih (t.drop ((b + 1) - 1)) (by simp at hl ⊢; omega)]
      simp [List.take_append_drop]

lemma chunksRec_mem_bounds (b : Nat) :
    ∀ (n : Nat) (l : List α), l.length ≤ n →
      ∀ c ∈ chunksRec (b + 1) l, c ≠ [] ∧ c.length ≤ b + 1 := by
  intro n
  induction n with
  | zero =>
    intro l hl c hc
    have : l = [] := List.length_eq_zero.mp (Nat.le_zero.mp hl)
    subst this
    simp [chunksRec_nil] at hc
  | succ n ih =>
    intro l hl c hc
    cases l with
    | nil => simp [chunksRec_nil] at hc
    | cons a t =>
      rw [chunksRec_cons] at hc
      rcases List.mem_cons.mp hc with h | h
      · subst h
        refine ⟨by simp, ?_⟩
        simp only [List.length_cons, List.length_take]
        omega
      · exact ih (t.drop ((b + 1) - 1)) (by simp at hl ⊢; omega) c h

lemma chunksRec_dropLast_full (b : Nat) :
    ∀ (n : Nat) (l : List α), l.length ≤ n →
      ∀ c ∈ (chunksRec (b + 1) l).dropLast, c.length = b + 1 := by
  intro n
  induction n with
  | zero =>
    intro l hl c hc
    have : l = [] := List.length_eq_zero.mp (Nat.le_zero.mp hl)
    subst this
    simp [chunksRec_nil] at hc
  | succ n ih =>
    intro l hl c hc
    cases l with
    | nil => simp [chunksRec_nil] at hc
    | cons a t =>
      rw [chunksRec_cons] at hc
      cases hrest : chunksRec (b + 1) (t.drop ((b + 1) - 1)) with
      | nil => rw [hrest] at hc; simp at hc
      | cons r rs =>
        rw [hrest, List.dropLast_cons₂] at hc
        rcases List.mem_cons.mp hc with h | h
        · subst h
          have hne : t.drop ((b + 1) - 1) ≠ [] := by
            intro hnil
            rw [hnil, chunksRec_nil] at hrest
            exact List.noConfusion hrest
          have hlen : 0 < (t.drop ((b + 1) - 1)).length := List.length_pos.mpr hne
          simp only [List.length_drop] at hlen
          simp [List.length_take]
          omega
        · have hih := ih (t.drop ((b + 1) - 1)) (by simp at hl ⊢; omega) c
          rw [hrest] at hih
          exact hih h

lemma partitionBatches_eq_chunksRec (rawDois : List String) (processed : Finset String)
    (b : Nat) :
    partitionBatches rawDois processed (b + 1) =
      chunksRec (b + 1) (remainingOf rawDois processed) := by
  simp only [partitionBatches]
  exact slices_eq_chunksRec b (remainingOf rawDois processed).length _ le_rfl

/-- C6: the batcher lower-cases every raw identifier (preserving duplicates
and order), removes exactly the identifiers in the checkpoint, and splits the
remainder into consecutive chunks of the batch size: concatenating the
batches gives back the filtered remainder, every batch but the last is full,
every batch is non-empty and at most the batch size, the number of batches is
`⌈remainder / batchSize⌉`, and 101 remaining identifiers with batch size 100
give exactly two batches of sizes 100 and 1. -/
theorem batcher_partition_spec (rawDois : List String) (processed : Finset String)
    (bs : Nat) (hbs : 0 < bs) :
    (partitionBatches rawDois processed bs).flatten =
      (rawDois.map pyLower).filter (fun d => d ∉ processed) ∧
    (∀ c ∈ (partitionBatches rawDois processed bs).dropLast, c.length = bs) ∧
    (∀ c ∈ partitionBatches rawDois processed bs, c ≠ [] ∧ c.length ≤ bs) ∧
    (partitionBatches rawDois processed bs).length =
      (((rawDois.map pyLower).filter (fun d => d ∉ processed)).length + bs - 1) / bs ∧
    (partitionBatches (List.replicate 101 "a") ∅ 100).map List.length = [100, 1] := by
  obtain ⟨b, rfl⟩ : ∃ b, bs = b + 1 := ⟨bs - 1, by omega⟩
  have hbridge := partitionBatches_eq_chunksRec rawDois processed b
  refine ⟨?_, ?_, ?_, ?_, ?_⟩
  · rw [hbridge]
    exact chunksRec_flatten b (remainingOf rawDois processed).length _ le_rfl
  · rw [hbridge]
    exact chunksRec_dropLast_full b (remainingOf rawDois processed).length _ le_rfl
  · rw [hbridge]
    exact chunksRec_mem_bounds b (remainingOf rawDois processed).length _ le_rfl
  · simp only [partitionBatches, List.length_map, List.length_range]
    rfl
  · decide

/-- Witness for C6 at raw identifiers `['A', 'b']`, empty checkpoint and
batch size 1. -/
theorem batcher_partition_spec_witness :
    (partitionBatches ["A", "b"] ∅ 1).flatten =
      ((["A", "b"] : List String).map pyLower).filter
        (fun d => d ∉ (∅ : Finset String)) ∧
    (∀ c ∈ (partitionBatches ["A", "b"] ∅ 1).dropLast, c.length = 1) ∧
    (∀ c ∈ partitionBatches ["A", "b"] ∅ 1, c ≠ [] ∧ c.length ≤ 1) ∧
    (partitionBatches ["A", "b"] ∅ 1).length =
      (((["A", "b"] : List String).map pyLower).filter
        (fun d => d ∉ (∅ : Finset String))).length + 1 - 1 ∧
    (partitionBatches (List.replicate 101 "a") ∅ 100).map List.length = [100, 1] := by
  have h := batcher_partition_spec ["A", "b"] ∅ 1 Nat.one_pos
  simpa using h

/-!
## Claims about the orchestrator (C8, C9, C10)
-/

lemma runLoop_cons (o : BatchOracle) (rest : List BatchOracle) (s : RunState) :
    runLoop (o :: rest) s = runLoop rest (processBatch o s) := rfl

lemma runLoop_persists (oras : List BatchOracle) :
    ∀ s : RunState, (runLoop oras s).persists = s.persists + oras.length := by
  induction oras with
  | nil => intro s; simp [runLoop]
  | cons o rest ih =>
    intro s
    rw [runLoop_cons, ih (processBatch o s)]
    simp [processBatch]
    omega

lemma runLoop_disk_eq_mem (oras : List BatchOracle) :
    ∀ s : RunState, oras ≠ [] →
      (runLoop oras s).disk = (runLoop oras s).mem := by
  induction oras with
  | nil => intro s h; exact absurd rfl h
  | cons o rest ih =>
    intro s _
    cases hr : rest with
    | nil => rfl
    | cons r rs =>
      rw [runLoop_cons]
      exact hr ▸ ih (processBatch o s) (by simp [hr])

/-- C8: the checkpoint is persisted once in every iteration of the batch
loop, unconditionally: after any first `i + 1` iterations the on-disk
checkpoint equals the in-memory set (so they never diverge by more than the
current batch), and a run over `n` batches performs exactly `n` persist
calls, whatever the fetches returned and whether or not the artifact writes
failed. -/
theorem checkpoint_persisted_every_batch (oras : List BatchOracle) (s : RunState)
    (i : Nat) (hi : i < oras.length) :
    (runLoop (oras.take (i + 1)) s).disk = (runLoop (oras.take (i + 1)) s).mem ∧
    (runLoop oras s).persists = s.persists + oras.length := by
  constructor
  · apply runLoop_disk_eq_mem
    intro h
    have hlen := congrArg List.length h
    rw [List.length_take] at hlen
    simp only [List.length_nil] at hlen
    omega
  · exact runLoop_persists oras s

/-- Witness for C8: one batch whose fetch returned nothing. -/
theorem checkpoint_persisted_every_batch_witness :
    (runLoop (([⟨[], Option.none⟩] : List BatchOracle).take (0 + 1)) ⟨∅, ∅, 0⟩).disk =
      (runLoop (([⟨[], Option.none⟩] : List BatchOracle).take (0 + 1)) ⟨∅, ∅, 0⟩).mem ∧
    (runLoop ([⟨[], Option.none⟩] : List BatchOracle) ⟨∅, ∅, 0⟩).persists =
      (⟨∅, ∅, 0⟩ : RunState).persists + ([⟨[], Option.none⟩] : List BatchOracle).length :=
  checkpoint_persisted_every_batch [⟨[], Option.none⟩] ⟨∅, ∅, 0⟩ 0 (by decide)

lemma save_batch_compressed_subset (results : List (String × PyVal))
    (failAt : Option Nat) (processed : Finset String) :
    processed ⊆ (save_batch_compressed results failAt processed).1 := by
  by_cases h : results.isEmpty
  · simp [save_batch_compressed, h]
  · simp only [save_batch_compressed, h, if_false]
    exact writeLoop_subset failAt results 0 processed

lemma processBatch_mem_subset (ora : BatchOracle) (s : RunState) :
    s.mem ⊆ (processBatch ora s).mem := by
  simp only [processBatch]
  by_cases h : ora.fetchResult.isEmpty
  · simp [h]
  · simp only [h, if_false]
    exact save_batch_compressed_subset ora.fetchResult ora.writeFailAt s.mem

lemma runLoop_mem_subset (oras : List BatchOracle) :
    ∀ s : RunState, s.mem ⊆ (runLoop oras s).mem := by
  induction oras with
  | nil => intro s; simp [runLoop]
  | cons o rest ih =>
    intro s
    rw [runLoop_cons]
    exact (processBatch_mem_subset o s).trans (ih (processBatch o s))

/-- C10: within a run the in-memory checkpoint set only grows: one loop
iteration maps it to a superset, any sequence of iterations maps it to a
superset, and the whole of `main` ends with a superset of the checkpoint
loaded at startup. -/
theorem checkpoint_monotone_within_run (oras : List BatchOracle) (ora : BatchOracle)
    (s : RunState) (rawDois : List String) (processedInit : Finset String)
    (oracle : Nat → BatchOracle) :
    s.mem ⊆ (processBatch ora s).mem ∧
    s.mem ⊆ (runLoop oras s).mem ∧
    processedInit ⊆ (mainRun rawDois processedInit oracle).final.mem := by
  refine ⟨processBatch_mem_subset ora s, runLoop_mem_subset oras s, ?_⟩
  cases h1 : (rawDois.map pyLower).isEmpty with
  | true =>
    simp only [mainRun, h1, if_true]
    exact Finset.Subset.refl _
  | false =>
    cases h2 : ((rawDois.map pyLower).filter (fun d => d ∉ processedInit)).isEmpty with
    | true =>
      simp only [mainRun, h1, h2, Bool.false_eq_true, if_false, if_true]
      exact Finset.Subset.refl _
    | false =>
      simp only [mainRun, h1, h2, Bool.false_eq_true, if_false]
      exact runLoop_mem_subset _ ⟨processedInit, processedInit, 0⟩

/-- C9: when every (case-folded) input identifier is already in the loaded
checkpoint, the run exits through the `allProcessed` branch: zero batches are
created, `fetch_metadata_batch` is never invoked, and the final state is the
initial one. -/
theorem empty_remainder_short_circuit (rawDois : List String)
    (processedInit : Finset String) (oracle : Nat → BatchOracle)
    (hne : rawDois ≠ [])
    (hall : ∀ d ∈ rawDois, pyLower d ∈ processedInit) :
    mainRun rawDois processedInit oracle =
      ⟨.allProcessed, 0, 0, ⟨processedInit, processedInit, 0⟩⟩ := by
  have h1 : (rawDois.map pyLower).isEmpty = false := by
    cases hraw : rawDois with
    | nil => exact absurd hraw hne
    | cons a t => simp [hraw]
  have h2 : ((rawDois.map pyLower).filter (fun d => d ∉ processedInit)) = [] := by
    apply List.filter_eq_nil_iff.mpr
    intro a ha
    obtain ⟨d, hd, rfl⟩ := List.mem_map.mp ha
    simp [hall d hd]
  simp only [mainRun, h1, h2, Bool.false_eq_true, if_false, List.isEmpty_nil, if_true]

/-- Witness for C9: input `['A']` with checkpoint `{'a'}` (case-folding makes
it already processed). -/
theorem empty_remainder_short_circuit_witness :
    mainRun ["A"] {"a"} (fun _ => ⟨[], Option.none⟩) =
      ⟨.allProcessed, 0, 0, ⟨{"a"}, {"a"}, 0⟩⟩ :=
  empty_remainder_short_circuit ["A"] {"a"} (fun _ => ⟨[], Option.none⟩)
    (by decide) (by decide)
